import Mathlib

/-!
Verification of the differential terminal animation renderer
(`animate.py`).  The Python source is shallowly embedded: the `Frame`
class becomes a structure plus pure functions, the methods of
`DifferentialRenderer` that write to stdout become pure functions
returning a trace of output events (`Out`), and the infinite animation
loop is modelled with an explicit interrupt budget counting primitive
operations performed before the `KeyboardInterrupt` arrives.
-/

namespace Anim

/-- One observable action on the stdout stream: a `write`, a `flush`,
or a `time.sleep` suspension point. -/
inductive Out where
  | write (s : String)
  | flush
  | sleep
deriving DecidableEq, Repr

/-- True on the characters that the `str.splitlines` method of Python
treats as line boundaries. -/
def isLineBreak (c : Char) : Bool :=
  c == '\n' || c == '\r' || c == '\x0b' || c == '\x0c' ||
  c == '\x1c' || c == '\x1d' || c == '\x1e' || c == '\x85' ||
  c == '\u2028' || c == '\u2029'

/-- Accumulator-based scanner for `str.splitlines`: `acc` holds the
characters of the current row in reverse.  A terminating line break
does not produce a trailing empty row, matching Python. -/
def splitlinesAux : List Char → List Char → List String
  | [], acc => if acc.isEmpty then [] else [String.mk acc.reverse]
  | '\r' :: '\n' :: rest, acc => String.mk acc.reverse :: splitlinesAux rest []
  | c :: rest, acc =>
    if isLineBreak c then String.mk acc.reverse :: splitlinesAux rest []
    else splitlinesAux rest (c :: acc)

/-- Model of the `content.splitlines()` call in the `Frame` constructor. -/
def splitlines (s : String) : List String := splitlinesAux s.data []

/-- Final byte of a CSI sequence: the regex class `[@-~]`. -/
def isEscFinalByte (c : Char) : Bool := '@' ≤ c && c ≤ '~'

/-- CSI parameter byte: the regex class `[0-?]`. -/
def isCsiParamByte (c : Char) : Bool := '0' ≤ c && c ≤ '?'

/-- CSI intermediate byte: the regex class of bytes 0x20 to 0x2F. -/
def isCsiInterByte (c : Char) : Bool := ' ' ≤ c && c ≤ '/'

/-- Two-character escape: the regex class `[@-Z\\-_]`, i.e. bytes
0x40 to 0x5A and 0x5C to 0x5F (the byte 0x5B, `[`, is excluded). -/
def isTwoCharEsc (c : Char) : Bool :=
  ('@' ≤ c && c ≤ 'Z') || ('\\' ≤ c && c ≤ '_')

/-- Match the tail of a CSI sequence after `ESC [`: parameter bytes,
then intermediate bytes, then a final byte; returns the remainder of
the input on success. -/
def csiTail (l : List Char) : Option (List Char) :=
  match (l.dropWhile isCsiParamByte).dropWhile isCsiInterByte with
  | c :: rest => if isEscFinalByte c then some rest else none
  | [] => none

/-- Fuel-indexed scanner for `re.sub` with the ANSI-escape regex of
`Frame.strip_ansi`.  On a failed match at an ESC the scan resumes one
character later, as `re.sub` does; fuel bounds the number of scan
positions, and fuel equal to the input length is always enough. -/
def stripGo : Nat → List Char → List Char
  | 0, l => l
  | _ + 1, [] => []
  | fuel + 1, c :: rest =>
    if c = '\x1b' then
      match rest with
      | [] => [c]
      | d :: rest2 =>
        if isTwoCharEsc d then stripGo fuel rest2
        else if d = '[' then
          match csiTail rest2 with
          | some rem => stripGo fuel rem
          | none => c :: stripGo fuel rest
        else c :: stripGo fuel rest
    else c :: stripGo fuel rest

/-- An animation frame: a name and the rows obtained by splitting the
raw file content.  The Python class stores `lines` at construction
time; `height` and `width` are derived fields, modelled below as
functions of `lines`. -/
structure Frame where
  name : String
  lines : List String
deriving DecidableEq, Repr

instance : Inhabited Frame := ⟨⟨"", []⟩⟩

/-- Model of `Frame.strip_ansi`: remove ANSI escape sequences. -/
def Frame.strip_ansi (text : String) : String :=
  String.mk (stripGo text.data.length text.data)

/-- Model of the `Frame.__init__` constructor: split the content into
rows. -/
def Frame.ofContent (name content : String) : Frame :=
  ⟨name, splitlines content⟩

/-- The `height` field: `len(self.lines)`. -/
def Frame.height (f : Frame) : Nat := f.lines.length

/-- The `width` field: maximum stripped length over the rows, or 0 for
a frame with no rows. -/
def Frame.width (f : Frame) : Nat :=
  if f.lines.isEmpty then 0
  else ((f.lines.map fun line => (Frame.strip_ansi line).length).max?).getD 0

/-- Model of `Frame.get_line`: the row at index `y` when
`0 <= y < height`, otherwise `None`.  The index is an integer, as in
Python, so negative arguments are representable. -/
def Frame.get_line (f : Frame) (y : Int) : Option String :=
  if 0 ≤ y ∧ y < (f.height : Int) then f.lines[y.toNat]? else none

/-! ANSI sequences stored on the renderer. -/

def hide_cursor : String := "\x1b[?25l"

def show_cursor : String := "\x1b[?25h"

def clear : String := "\x1b[2J\x1b[H"

def erase_line : String := "\x1b[2K"

def enable_sync_rendering : String := "\x1b[?2026h"

def disable_sync_rendering : String := "\x1b[?2026l"

/-- Model of `move_cursor`: the 1-indexed cursor positioning sequence. -/
def move_cursor (x y : Nat) : String :=
  "\x1b[" ++ toString (y + 1) ++ ";" ++ toString (x + 1) ++ "H"

/-- Model of `find_line_differences`, following the cascade of the
source line by line. -/
def find_line_differences (old_line new_line : Option String) :
    List (Nat × String) :=
  match old_line, new_line with
  | none, none => []
  | none, some n => [(0, n)]
  | some _, none => [(0, "")]
  | some o, some n => if o ≠ n then [(0, n)] else []

/-- Model of `render_frame`: clear the screen, write every row behind a
cursor move, flush once. -/
def render_frame (frame : Frame) : List Out :=
  Out.write clear ::
    (frame.lines.enum.flatMap fun p => [Out.write (move_cursor 0 p.1), Out.write p.2])
    ++ [Out.flush]

/-- Output of one iteration of the main loop of
`render_frame_difference` at row `y`: when the differences are
non-empty, a cursor move and a row erase, then the next row content
when present. -/
def rowDiffOut (current next : Frame) (y : Nat) : List Out :=
  let current_line := current.get_line y
  let next_line := next.get_line y
  let differences := find_line_differences current_line next_line
  if differences ≠ [] then
    [Out.write (move_cursor 0 y), Out.write erase_line] ++
      (match next_line with
       | some l => [Out.write l]
       | none => [])
  else []

/-- Output of the trailing pass of `render_frame_difference`: when the
next frame is shorter, move to and erase every row from the next
height up to the current height. -/
def trailingErase (current next : Frame) : List Out :=
  if next.height < current.height then
    (List.range' next.height (current.height - next.height)).flatMap fun y =>
      [Out.write (move_cursor 0 y), Out.write erase_line]
  else []

/-- Model of `render_frame_difference`: the main per-row loop over
`range(max_height)`, the trailing erase pass, then a single flush. -/
def render_frame_difference (current next : Frame) : List Out :=
  ((List.range (max current.height next.height)).flatMap (rowDiffOut current next))
    ++ trailingErase current next ++ [Out.flush]

/-- The list that `itertools.cycle` iterates over in `run_animation`:
`frames[1:] + [frames[0]]` (empty input never reaches this point since
`run_animation` returns first). -/
def cycleList (frames : List Frame) : List Frame :=
  match frames with
  | [] => []
  | f0 :: rest => rest ++ [f0]

/-- The frame delivered by the `i`-th step of the cycle iterator of
`run_animation`: element `i mod n` of the cycled list. -/
def visitedFrame (frames : List Frame) (i : Nat) : Option Frame :=
  (cycleList frames)[i % (cycleList frames).length]?

/-- Teardown trace of the `finally` block of `run_animation`: show the
cursor, clear the screen, disable synchronized mode (which performs its
own flush), print the notice, flush. -/
def teardownOps : List Out :=
  [Out.write show_cursor, Out.write clear, Out.write disable_sync_rendering,
   Out.flush, Out.write "Animation stopped.\n", Out.flush]

/-- The animation loop body, starting at cycle position `i` with `b`
primitive operations of budget left before the interrupt arrives.
Every iteration performs a sleep and the diff render against the next
visited frame; the interrupt truncates the trace at operation `b`. -/
def loopBody (cyc : List Frame) (current : Frame) (i b : Nat) : List Out :=
  let next := cyc.getD (i % cyc.length) default
  let ops := Out.sleep :: render_frame_difference current next
  if b ≤ ops.length then ops.take b
  else ops ++ loopBody cyc next (i + 1) (b - ops.length)
termination_by b
decreasing_by simp at *; omega

/-- The trace of the `try` block of `run_animation` when the frame list
is `f0 :: rest`: hide the cursor, enable synchronized mode with its
flush, full-render the first frame, then loop; truncated after `b`
primitive operations by the interrupt. -/
def tryBody (f0 : Frame) (rest : List Frame) (b : Nat) : List Out :=
  let setup := Out.write hide_cursor :: Out.write enable_sync_rendering ::
    Out.flush :: render_frame f0
  if b ≤ setup.length then setup.take b
  else setup ++ loopBody (rest ++ [f0]) f0 0 (b - setup.length)

/-- Model of `run_animation` with interrupt budget `b`: the empty frame
list returns immediately with no output; otherwise the `try` block runs
until the interrupt, and the `finally` teardown always follows. -/
def run_animation (frames : List Frame) (b : Nat) : List Out :=
  match frames with
  | [] => []
  | f0 :: rest => tryBody f0 rest b ++ teardownOps

/-- Filename filter of `load_frames`: the comprehension keeps names
with the recognized prefix and suffix. -/
def matchesPattern (f : String) : Bool :=
  "frame_cleaned_".data.isPrefixOf f.data && ".txt".data.isSuffixOf f.data

/-- Model of the `str.split` method of Python with a one-character
separator: split at every occurrence, keeping empty pieces. -/
def splitCharAux (sep : Char) : List Char → List Char → List String
  | [], acc => [String.mk acc.reverse]
  | c :: rest, acc =>
    if c = sep then String.mk acc.reverse :: splitCharAux sep rest []
    else splitCharAux sep rest (c :: acc)

/-- The call `f_name.split('_')` of the source. -/
def pySplit (sep : Char) (s : String) : List String :=
  splitCharAux sep s.data []

/-- Model of the Python slice `[:-4]`: all characters but the last
four, empty when the string is shorter. -/
def pyDropLast4 (s : String) : String :=
  String.mk (s.data.take (s.data.length - 4))

/-- The string from which the sort key is parsed:
`f_name.split('_')[-1][:-4]`. -/
def frame_key_str (f : String) : String :=
  pyDropLast4 ((pySplit '_' f).getLastD "")

/-- Value of a non-empty list of decimal digit characters, `none` when a
non-digit occurs. -/
def digitsVal (ds : List Char) : Option Nat :=
  if ds = [] then none
  else
    ds.foldl
      (fun acc c =>
        match acc with
        | none => none
        | some n => if c.isDigit then some (n * 10 + (c.toNat - 48)) else none)
      (some 0)

/-- Model of the builtin `int(str)` of Python on the strings this
program produces: an optional sign followed by decimal digits; `none`
when `int` would raise `ValueError`. -/
def parse_int (s : String) : Option Int :=
  match s.data with
  | '-' :: ds => (digitsVal ds).map fun n => -(n : Int)
  | '+' :: ds => (digitsVal ds).map fun n => (n : Int)
  | ds => (digitsVal ds).map fun n => (n : Int)

/-- The sort key of a frame filename: `int(...)` of the key string,
`none` when the call of `int` would raise. -/
def frame_key (f : String) : Option Int :=
  parse_int (frame_key_str f)

/-- Total version of the key, defined on parseable names. -/
def frame_keyD (f : String) : Int := (frame_key f).getD 0

/-- Errors of `load_frames`: the explicit `ValueError` raised on an
empty match list, and the `ValueError` that `int()` raises inside the
sort key on a non-numeric index. -/
inductive LoadError where
  | noFrameFiles
  | badIndex
deriving DecidableEq, Repr

/-- Model of `load_frames` over an abstract directory: `listing` is the
result of `os.listdir` and `contents` maps a filename to its text.
The Python code filters, sorts by the integer key (computing every key,
so a non-numeric index raises before anything is loaded), raises when
no file matched, and otherwise appends a `Frame` per file to the
existing `self.frames` and returns the resulting length.  The stable
sort of Python is modelled by `List.insertionSort`, also stable. -/
def load_frames (contents : String → String) (listing : List String)
    (frames : List Frame) : Except LoadError (List Frame × Nat) :=
  let matched := listing.filter matchesPattern
  if matched.any fun f => (frame_key f).isNone then .error .badIndex
  else
    let frame_files :=
      List.insertionSort (fun a b => frame_keyD a ≤ frame_keyD b) matched
    if frame_files.isEmpty then .error .noFrameFiles
    else
      let newFrames := frames ++ frame_files.map fun p => Frame.ofContent p (contents p)
      .ok (newFrames, newFrames.length)

/-- True on write events; used to compare screen-affecting output. -/
def Out.isWrite : Out → Bool
  | .write _ => true
  | _ => false

/-- A concrete two-row frame used in witnesses and counterexamples. -/
def frameA : Frame := Frame.ofContent "A" "a\nb"

/-- A concrete one-row frame used in witnesses and counterexamples. -/
def frameB : Frame := Frame.ofContent "B" "a"

/-- A concrete one-row frame used in witnesses. -/
def frameC : Frame := Frame.ofContent "C" "c"

/-! Helper lemmas shared by several results. -/

lemma find_line_differences_self (o : Option String) :
    find_line_differences o o = [] := by
  cases o <;> simp [find_line_differences]

lemma rowDiffOut_self (F : Frame) (y : Nat) : rowDiffOut F F y = [] := by
  simp [rowDiffOut, find_line_differences_self]

lemma flush_not_mem_rowDiffOut (c n : Frame) (y : Nat) :
    Out.flush ∉ rowDiffOut c n y := by
  simp only [rowDiffOut]
  split
  · cases h : n.get_line (y : Int) <;> simp [h]
  · simp

lemma flush_not_mem_trailingErase (c n : Frame) :
    Out.flush ∉ trailingErase c n := by
  simp only [trailingErase]
  split
  · simp [List.mem_flatMap]
  · simp

/-- C6: constructing a Frame from a name and a text yields a height
equal to the number of rows the text splits into, a non-negative
width, height and width zero for a frame with zero rows, and
`get_line` returns the row at index `y` for `0 <= y < height` and no
row for `y >= height` and for `y < 0`. -/
theorem frame_construction_spec (name content : String) :
    (Frame.ofContent name content).height = (splitlines content).length ∧
    0 ≤ (Frame.ofContent name content).width ∧
    ((Frame.ofContent name content).lines = [] →
      (Frame.ofContent name content).height = 0 ∧
      (Frame.ofContent name content).width = 0) ∧
    (∀ y : Int, 0 ≤ y → y < ((Frame.ofContent name content).height : Int) →
      (Frame.ofContent name content).get_line y =
        (Frame.ofContent name content).lines[y.toNat]? ∧
      ((Frame.ofContent name content).lines[y.toNat]?).isSome = true) ∧
    (∀ y : Int, ((Frame.ofContent name content).height : Int) ≤ y →
      (Frame.ofContent name content).get_line y = none) ∧
    (∀ y : Int, y < 0 → (Frame.ofContent name content).get_line y = none) := by
  refine ⟨rfl, Nat.zero_le _, ?_, ?_, ?_, ?_⟩
  · intro h
    constructor
    · simp [Frame.height, h]
    · simp [Frame.width, h]
  · intro y h0 hlt
    constructor
    · simp [Frame.get_line, h0, hlt]
    · have hlen : y.toNat < (Frame.ofContent name content).lines.length := by
        simp only [Frame.height] at hlt
        omega
      rw [List.getElem?_eq_getElem hlen]
      rfl
  · intro y hy
    simp only [Frame.get_line]
    rw [if_neg]
    omega
  · intro y hy
    simp only [Frame.get_line]
    rw [if_neg]
    omega

/-- C6 witness: the concrete frame built from the text with rows
`a` and `b`. -/
theorem frame_construction_spec_witness :
    (Frame.ofContent "A" "a\nb").height = (splitlines "a\nb").length ∧
    (Frame.ofContent "A" "a\nb").get_line 1 =
      (Frame.ofContent "A" "a\nb").lines[(1 : Int).toNat]? ∧
    (Frame.ofContent "A" "a\nb").get_line 2 = none ∧
    (Frame.ofContent "A" "a\nb").get_line (-1) = none :=
  ⟨(frame_construction_spec "A" "a\nb").1,
   ((frame_construction_spec "A" "a\nb").2.2.2.1 1 (by decide) (by decide)).1,
   (frame_construction_spec "A" "a\nb").2.2.2.2.1 2 (by decide),
   (frame_construction_spec "A" "a\nb").2.2.2.2.2 (-1) (by decide)⟩

/-- C2: the differ reports no change exactly when the two optional
rows are equal, and otherwise reports the single change `(0, content)`
where the content is the new row when present and empty when the new
row is absent. -/
theorem find_line_differences_spec (old_line new_line : Option String) :
    find_line_differences old_line new_line =
      if old_line = new_line then [] else [(0, new_line.getD "")] := by
  cases old_line with
  | none =>
    cases new_line with
    | none => simp [find_line_differences]
    | some n => simp [find_line_differences]
  | some o =>
    cases new_line with
    | none => simp [find_line_differences]
    | some n =>
      by_cases h : o = n <;> simp [find_line_differences, h]

/-- C5: diffing a frame against itself produces zero row-level
changes, so its trace is the single flush, and a full render followed
by a self diff performs exactly the writes of the full render alone. -/
theorem render_diff_self_idempotent (F : Frame) :
    render_frame_difference F F = [Out.flush] ∧
    (render_frame F ++ render_frame_difference F F).filter Out.isWrite =
      (render_frame F).filter Out.isWrite := by
  have h1 : render_frame_difference F F = [Out.flush] := by
    simp [render_frame_difference, trailingErase, List.flatMap_eq_nil_iff,
      rowDiffOut_self]
  refine ⟨h1, ?_⟩
  rw [List.filter_append, h1]
  simp [Out.isWrite]

/-- C1: the diff render trace consists of the main loop over rows
`0 .. max(current.height, next.height) - 1`, emitting for each changed
row a cursor move to column 0 of the row, a row erase, and the next
row content when the next frame has that row; then the trailing erase
pass over rows `next.height .. current.height - 1` when the next frame
is shorter; then exactly one flush, at the end of the trace. -/
theorem render_diff_structure (current next : Frame) :
    render_frame_difference current next =
      ((List.range (max current.height next.height)).flatMap fun y =>
        if find_line_differences (current.get_line y) (next.get_line y) ≠ [] then
          [Out.write (move_cursor 0 y), Out.write erase_line] ++
            (match next.get_line (y : Int) with
             | some l => [Out.write l]
             | none => [])
        else [])
      ++ (if next.height < current.height then
            (List.range' next.height (current.height - next.height)).flatMap fun y =>
              [Out.write (move_cursor 0 y), Out.write erase_line]
          else [])
      ++ [Out.flush] ∧
    (render_frame_difference current next).count Out.flush = 1 ∧
    (render_frame_difference current next).getLast? = some Out.flush := by
  refine ⟨rfl, ?_, ?_⟩
  · rw [render_frame_difference, List.count_append, List.count_append]
    rw [List.count_eq_zero.mpr, List.count_eq_zero.mpr]
    · simp
    · exact flush_not_mem_trailingErase current next
    · intro hmem
      rcases List.mem_flatMap.mp hmem with ⟨y, _, hy⟩
      exact flush_not_mem_rowDiffOut current next y hy
  · rw [render_frame_difference]
    exact List.getLast?_concat _

/-- C4 counterexample: the claim says each changed row receives at most
one cursor move, but when the next frame is shorter the shrunk rows are
addressed twice, once by the main loop (the differ reports a change
against the absent row) and once by the trailing erase pass.  With the
two-row frame `frameA` and the one-row frame `frameB`, row 1 receives
two cursor moves, so the output is not minimal. -/
theorem render_diff_not_minimal :
    ¬ ((render_frame_difference frameA frameB).count
        (Out.write (move_cursor 0 1)) ≤ 1) := by decide

/-- C4 amended: rows whose diff reports no change receive no output;
each changed row receives exactly one cursor move, one erase, and at
most one content write from the main loop; but every row with index in
`[next.height, current.height)` additionally receives a second cursor
move and erase from the trailing pass, so for shrinking frames the
trace is not minimal. -/
theorem render_diff_row_writes (c n : Frame) (y : Nat) :
    (find_line_differences (c.get_line y) (n.get_line y) = [] →
      rowDiffOut c n y = []) ∧
    (find_line_differences (c.get_line y) (n.get_line y) ≠ [] →
      rowDiffOut c n y =
        [Out.write (move_cursor 0 y), Out.write erase_line] ++
          ((n.get_line (y : Int)).map Out.write).toList) ∧
    (n.height < c.height →
      trailingErase c n =
        (List.range' n.height (c.height - n.height)).flatMap fun z =>
          [Out.write (move_cursor 0 z), Out.write erase_line]) ∧
    (c.height ≤ n.height → trailingErase c n = []) := by
  refine ⟨?_, ?_, ?_, ?_⟩
  · intro h
    simp [rowDiffOut, h]
  · intro h
    simp only [rowDiffOut]
    rw [if_pos h]
    cases hg : n.get_line (y : Int) <;> simp [hg]
  · intro h
    simp [trailingErase, h]
  · intro h
    simp [trailingErase, Nat.not_lt.mpr h]

/-- C4 amended witness: concrete rows of `frameA` and `frameB`; the
unchanged row 0 contributes nothing, the changed row 1 contributes one
move and one erase, and the trailing pass re-erases row 1. -/
theorem render_diff_row_writes_witness :
    rowDiffOut frameA frameB 0 = [] ∧
    rowDiffOut frameA frameB 1 =
      [Out.write (move_cursor 0 1), Out.write erase_line] ++
        ((frameB.get_line (1 : Int)).map Out.write).toList ∧
    trailingErase frameA frameB =
      ((List.range' frameB.height (frameA.height - frameB.height)).flatMap fun z =>
        [Out.write (move_cursor 0 z), Out.write erase_line]) ∧
    trailingErase frameB frameA = [] :=
  ⟨(render_diff_row_writes frameA frameB 0).1 (by decide),
   (render_diff_row_writes frameA frameB 1).2.1 (by decide),
   (render_diff_row_writes frameA frameB 1).2.2.1 (by decide),
   (render_diff_row_writes frameB frameA 1).2.2.2 (by decide)⟩

/-- C3: for a non-empty frame list, the frame delivered by the `i`-th
step of the animation loop cycle is `frames[(i + 1) mod n]`, so the
visiting order is `frames[1], ..., frames[n-1], frames[0]`, repeated
forever. -/
theorem cycle_visit_order (frames : List Frame) (h : frames ≠ []) (i : Nat) :
    visitedFrame frames i = frames[(i + 1) % frames.length]? := by
  match frames with
  | [] => exact absurd rfl h
  | f0 :: rest =>
    simp only [visitedFrame, cycleList, List.length_append, List.length_cons,
      List.length_nil, List.length_singleton]
    set n := rest.length + 1 with hnr
    have hpos : 0 < n := Nat.succ_pos _
    have hj : i % n < n := Nat.mod_lt _ hpos
    have hmod : (i + 1) % n = (i % n + 1) % n := by
      rw [Nat.add_mod i 1 n, Nat.add_mod (i % n) 1 n,
        Nat.mod_mod_of_dvd i (dvd_refl n)]
    rcases Nat.lt_or_ge (i % n) rest.length with hcase | hcase
    · have hr : (i + 1) % n = i % n + 1 :=
        hmod.trans (Nat.mod_eq_of_lt (by omega))
      rw [hr, List.getElem?_append, if_pos hcase, List.getElem?_cons_succ]
    · have he : i % n = rest.length := by omega
      have hr : (i + 1) % n = 0 := by
        rw [hmod, he, hnr, Nat.mod_self]
      rw [hr, he, List.getElem?_append]
      simp

/-- C3 witness: for the frames `[A, B, C]` the loop visits B, C, A,
then B again. -/
theorem cycle_visit_order_witness :
    ([frameA, frameB, frameC] ≠ []) ∧
    visitedFrame [frameA, frameB, frameC] 0 = some frameB ∧
    visitedFrame [frameA, frameB, frameC] 1 = some frameC ∧
    visitedFrame [frameA, frameB, frameC] 2 = some frameA ∧
    visitedFrame [frameA, frameB, frameC] 3 = some frameB :=
  ⟨by simp,
   (cycle_visit_order [frameA, frameB, frameC] (by simp) 0).trans (by decide),
   (cycle_visit_order [frameA, frameB, frameC] (by simp) 1).trans (by decide),
   (cycle_visit_order [frameA, frameB, frameC] (by simp) 2).trans (by decide),
   (cycle_visit_order [frameA, frameB, frameC] (by simp) 3).trans (by decide)⟩

/-- C7: whatever the interrupt budget, i.e. wherever in the setup or
loop body the `KeyboardInterrupt` lands, a run over a non-empty frame
list ends with the full teardown: show cursor, clear screen, disable
synchronized mode with its flush, the stopped notice, and a final
flush. -/
theorem teardown_always_runs (frames : List Frame) (b : Nat) (h : frames ≠ []) :
    ∃ pre, run_animation frames b =
      pre ++ [Out.write show_cursor, Out.write clear,
        Out.write disable_sync_rendering, Out.flush,
        Out.write "Animation stopped.\n", Out.flush] := by
  match frames with
  | [] => exact absurd rfl h
  | f0 :: rest => exact ⟨tryBody f0 rest b, rfl⟩

/-- C7 witness: an interrupt arriving before the first setup write
still produces exactly the teardown trace. -/
theorem teardown_always_runs_witness :
    ([frameA] ≠ []) ∧
    ∃ pre, run_animation [frameA] 0 =
      pre ++ [Out.write show_cursor, Out.write clear,
        Out.write disable_sync_rendering, Out.flush,
        Out.write "Animation stopped.\n", Out.flush] :=
  ⟨by simp, teardown_always_runs [frameA] 0 (by simp)⟩

/-- C8: with an empty frame list, `run_animation` returns immediately
and emits no output at all, for every interrupt budget. -/
theorem run_animation_empty_no_output (b : Nat) : run_animation [] b = [] := rfl

/-- C9 counterexample: a directory entry matching the recognized
prefix and suffix but carrying a non-numeric index makes the sort key
call of `int` raise, so `load_frames` raises even though a matching
file exists, refuting the claim that matching files always lead to a
returned frame count. -/
theorem load_frames_nonnumeric_raises :
    (["frame_cleaned_x.txt"].filter matchesPattern ≠ []) ∧
    load_frames (fun _ => "") ["frame_cleaned_x.txt"] [] =
      Except.error LoadError.badIndex := by
  exact ⟨by decide, rfl⟩

/-- C9 amended: `load_frames` raises the error with message
`No frame files found` exactly when the listing has no entry with the
recognized prefix and suffix; and when matching entries exist and
every one of them carries a numeric index, the call succeeds,
appending one frame per matching file in ascending order of the
integer index and returning the length of the resulting frame list. -/
theorem load_frames_spec (contents : String → String) (listing : List String)
    (frames : List Frame) :
    (load_frames contents listing frames = Except.error LoadError.noFrameFiles ↔
      listing.filter matchesPattern = []) ∧
    (listing.filter matchesPattern ≠ [] →
      (∀ f ∈ listing.filter matchesPattern, (frame_key f).isSome = true) →
      ∃ loaded,
        load_frames contents listing frames =
          Except.ok (frames ++ loaded, (frames ++ loaded).length) ∧
        loaded.length = (listing.filter matchesPattern).length ∧
        List.Sorted (· ≤ ·) (loaded.map fun fr => frame_keyD fr.name) ∧
        List.Perm (loaded.map Frame.name) (listing.filter matchesPattern)) := by
  haveI hTot : IsTotal String fun a b => frame_keyD a ≤ frame_keyD b :=
    ⟨fun a b => le_total _ _⟩
  haveI hTrans : IsTrans String fun a b => frame_keyD a ≤ frame_keyD b :=
    ⟨fun _ _ _ hab hbc => le_trans hab hbc⟩
  set m := listing.filter matchesPattern with hm
  have hperm :
      List.Perm (List.insertionSort (fun a b => frame_keyD a ≤ frame_keyD b) m) m :=
    List.perm_insertionSort _ m
  constructor
  · cases hA : m.any fun f => (frame_key f).isNone with
    | true =>
      have hne : m ≠ [] := by
        rcases List.any_eq_true.mp hA with ⟨f, hf, _⟩
        exact fun hnil => by simp [hnil] at hf
      simp [load_frames, ← hm, hA, hne]
    | false =>
      cases hB :
          (List.insertionSort (fun a b => frame_keyD a ≤ frame_keyD b) m).isEmpty with
      | true =>
        have hmnil : m = [] := by
          have := hperm.length_eq
          rw [List.isEmpty_iff] at hB
          rw [hB] at this
          exact List.length_eq_zero.mp this.symm
        simp [load_frames, ← hm, hA, hB, hmnil]
      | false =>
        have hmne : m ≠ [] := by
          intro hnil
          rw [hnil] at hB
          simp [List.insertionSort] at hB
        simp [load_frames, ← hm, hA, hB, hmne]
  · intro hne hkeys
    have hA : (m.any fun f => (frame_key f).isNone) = false := by
      rw [List.any_eq_false]
      intro f hf
      have := hkeys f hf
      cases hk : frame_key f
      · rw [hk] at this
        simp at this
      · simp [hk]
    have hB :
        (List.insertionSort (fun a b => frame_keyD a ≤ frame_keyD b) m).isEmpty
          = false := by
      rw [List.isEmpty_eq_false_iff_exists_mem]
      rcases List.exists_mem_of_ne_nil m hne with ⟨f, hf⟩
      exact ⟨f, (List.Perm.mem_iff hperm).mpr hf⟩
    refine ⟨(List.insertionSort (fun a b => frame_keyD a ≤ frame_keyD b) m).map
      fun p => Frame.ofContent p (contents p), ?_, ?_, ?_, ?_⟩
    · simp [load_frames, ← hm, hA, hB]
    · rw [List.length_map, List.length_insertionSort]
    · have hs := List.sorted_insertionSort
        (fun a b => frame_keyD a ≤ frame_keyD b) m
      rw [List.map_map]
      have hfun :
          ((fun fr => frame_keyD fr.name) ∘ fun p => Frame.ofContent p (contents p))
            = fun p => frame_keyD p := rfl
      rw [hfun]
      exact (List.pairwise_map).mpr hs
    · rw [List.map_map]
      have hfun :
          (Frame.name ∘ fun p => Frame.ofContent p (contents p)) = fun p => p := rfl
      rw [hfun, List.map_id']
      exact hperm

/-- C9 witness: a listing with two matching files in descending index
order and one non-matching entry loads both frames in ascending
order. -/
theorem load_frames_spec_witness :
    (["frame_cleaned_2.txt", "frame_cleaned_1.txt", "other"].filter
      matchesPattern ≠ []) ∧
    ∃ loaded,
      load_frames (fun _ => "x")
          ["frame_cleaned_2.txt", "frame_cleaned_1.txt", "other"] [] =
        Except.ok ([] ++ loaded, ([] ++ loaded).length) ∧
      loaded.length =
        (["frame_cleaned_2.txt", "frame_cleaned_1.txt", "other"].filter
          matchesPattern).length ∧
      List.Sorted (· ≤ ·) (loaded.map fun fr => frame_keyD fr.name) ∧
      List.Perm (loaded.map Frame.name)
        (["frame_cleaned_2.txt", "frame_cleaned_1.txt", "other"].filter
          matchesPattern) :=
  ⟨by decide,
   (load_frames_spec (fun _ => "x")
     ["frame_cleaned_2.txt", "frame_cleaned_1.txt", "other"] []).2
     (by decide) (by decide)⟩

/-- C10: `load_frames` appends to the existing frame list and returns
its cumulative length, so a second call over the same directory
returns twice the count of the first and duplicates every frame. -/
theorem load_frames_append_twice (contents : String → String)
    (listing : List String) (fr : List Frame) (n : Nat)
    (h : load_frames contents listing [] = Except.ok (fr, n)) :
    load_frames contents listing fr = Except.ok (fr ++ fr, 2 * n) ∧
    ∀ f : Frame, (fr ++ fr).count f = 2 * fr.count f := by
  cases hA : (listing.filter matchesPattern).any fun f => (frame_key f).isNone with
  | true => simp [load_frames, hA] at h
  | false =>
    cases hB : (List.insertionSort (fun a b => frame_keyD a ≤ frame_keyD b)
        (listing.filter matchesPattern)).isEmpty with
    | true => simp [load_frames, hA, hB] at h
    | false =>
      simp [load_frames, hA, hB] at h
      obtain ⟨h1, h2⟩ := h
      subst h1
      refine ⟨?_, fun f => by rw [List.count_append, two_mul]⟩
      simp [load_frames, hA, hB]
      omega

/-- C10 witness: loading the same one-file directory twice duplicates
the frame and doubles the returned count. -/
theorem load_frames_append_twice_witness :
    load_frames (fun _ => "hi") ["frame_cleaned_1.txt"] [] =
      Except.ok ([Frame.ofContent "frame_cleaned_1.txt" "hi"], 1) ∧
    load_frames (fun _ => "hi") ["frame_cleaned_1.txt"]
        [Frame.ofContent "frame_cleaned_1.txt" "hi"] =
      Except.ok ([Frame.ofContent "frame_cleaned_1.txt" "hi"] ++
        [Frame.ofContent "frame_cleaned_1.txt" "hi"], 2 * 1) :=
  ⟨rfl,
   (load_frames_append_twice (fun _ => "hi") ["frame_cleaned_1.txt"]
     [Frame.ofContent "frame_cleaned_1.txt" "hi"] 1 rfl).1⟩

end Anim
